import Mathlib

/-!
Verification of `read-spec-files.py` (lsst/ctn-004).

This file is a shallow embedding of the script into Lean 4: each Python
function is translated into an executable Lean definition operating on
`String` / `List Char` / association lists (modelling Python's
insertion-ordered `dict`), with Python exceptions modelled by
`Except String`.  Theorems about the claims of the specification follow
the definitions.
-/

set_option autoImplicit false

/-- Python `\s` / `str.isspace` on the ASCII whitespace characters
(space, tab, newline, carriage return, vertical tab, form feed). -/
def pyIsSpace (c : Char) : Bool :=
  c == ' ' || c == '\t' || c == '\n' || c == '\r' || c == '\x0b' || c == '\x0c'

/-- Python `str.strip()` on a list of characters. -/
def pyStripL (l : List Char) : List Char :=
  ((l.dropWhile pyIsSpace).reverse.dropWhile pyIsSpace).reverse

/-- Python `str.strip()`. -/
def pyStrip (s : String) : String :=
  (pyStripL s.data).asString

/-- Python `str.startswith`. -/
def pyStartsWith (s pre : String) : Bool :=
  pre.data.isPrefixOf s.data

/-- Lookup in a Python `dict` modelled as an insertion-ordered association
list (keys are unique in every dict the program builds; lookup returns the
first binding). -/
def dictLookup {α : Type} (d : List (String × α)) (k : String) : Option α :=
  match d with
  | [] => none
  | p :: rest => if p.1 = k then some p.2 else dictLookup rest k

/-- Python `d[k] = v` on an insertion-ordered association list: replace the
binding in place when the key is present, otherwise append it. -/
def dictUpdate1 {α : Type} (d : List (String × α)) (k : String) (v : α) :
    List (String × α) :=
  match d with
  | [] => [(k, v)]
  | p :: rest => if p.1 = k then (p.1, v) :: rest else p :: dictUpdate1 rest k v

/-- Python `d.update(e)` on insertion-ordered association lists. -/
def dictUpdateAll {α : Type} (d e : List (String × α)) : List (String × α) :=
  e.foldl (fun acc p => dictUpdate1 acc p.1 p.2) d

/-!
The tokenizer (`split`)

Python's `split(s, maxIndex)` iterates the regex `(".+?"|[\S]+)\s*` over
`s`.  A match is either a double-quoted run (the lazy `.+?` stops at the
first closing quote; `.` does not match a newline) or a maximal run of
non-whitespace characters; trailing whitespace is consumed.  `i.group(1)`
is appended, so a quoted token keeps its surrounding quote characters.
After `maxIndex` tokens the remainder of the line (`s[i.end():]`, i.e.
after the consumed whitespace) is appended and iteration stops.
-/

/-- Scan for the closing `"` of the lazy `.+?` (at least one interior
character has already been consumed by `quoteScan`); a newline aborts the
quoted alternative because `.` does not match it.  Returns the characters
before the closing quote and the characters after it. -/
def scanClose : List Char → Option (List Char × List Char)
  | [] => none
  | c :: cs =>
    if c = '"' then some ([], cs)
    else if c = '\n' then none
    else
      match scanClose cs with
      | some (i, r) => some (c :: i, r)
      | none => none

/-- Match `.+?"` after an opening quote: at least one non-newline interior
character, then the earliest closing quote. -/
def quoteScan : List Char → Option (List Char × List Char)
  | [] => none
  | c :: cs =>
    if c = '\n' then none
    else
      match scanClose cs with
      | some (i, r) => some (c :: i, r)
      | none => none

/-- One regex match `(".+?"|[\S]+)` at the current position (the caller
guarantees the head is non-whitespace).  Returns the matched token (group 1,
quotes included for the quoted alternative) and the rest of the input. -/
def matchTok (l : List Char) : List Char × List Char :=
  match l with
  | [] => ([], [])
  | c :: cs =>
    if c = '"' then
      match quoteScan cs with
      | some (i, r) => ('"' :: (i ++ ['"']), r)
      | none => (l.takeWhile (fun ch => !pyIsSpace ch), l.dropWhile (fun ch => !pyIsSpace ch))
    else (l.takeWhile (fun ch => !pyIsSpace ch), l.dropWhile (fun ch => !pyIsSpace ch))

/-- The `for i in iter` loop of `split`.  The fuel argument (instantiated
with the length of the input, which bounds the number of iterations) keeps
the recursion structural so that the definition reduces in the kernel. -/
def splitGo : Nat → List Char → Nat → Nat → List (List Char)
  | _, [], _, _ => []
  | 0, _ :: _, _, _ => []
  | fuel + 1, c :: cs, index, maxIndex =>
    if pyIsSpace c then splitGo fuel cs index maxIndex
    else
      let m := matchTok (c :: cs)
      let rest := m.2.dropWhile pyIsSpace
      if maxIndex ≤ index + 1 then [m.1, rest]
      else m.1 :: splitGo fuel rest (index + 1) maxIndex

/-- `split` from the source: tokenize `s`, stopping after `maxIndex` tokens
and then appending the untouched remainder of the line. -/
def split (s : String) (maxIndex : Nat) : List String :=
  (splitGo s.data.length s.data 0 maxIndex).map List.asString

/-!
The data model (`Card`) and the parser (`read_spec_file`)
-/

/-- The `Card` NamedTuple from the source.  `example` is a Lean keyword, so
the field is written with identifier quotation. -/
structure Card where
  source : String
  group : String
  header : String
  type : String
  spec : String
  description : String
  «example» : String := ""
  notes : String := ""
deriving DecidableEq, Repr

/-- `Card(*args)`: a NamedTuple call with positional arguments.  Six
required fields (`source group header type spec description`) and two
defaulted ones; any other arity raises `TypeError`. -/
def cardFromArgs : List String → Except String Card
  | [s, g, h, t, sp, d] => Except.ok ⟨s, g, h, t, sp, d, "", ""⟩
  | [s, g, h, t, sp, d, e] => Except.ok ⟨s, g, h, t, sp, d, e, ""⟩
  | [s, g, h, t, sp, d, e, n] => Except.ok ⟨s, g, h, t, sp, d, e, n⟩
  | _ => Except.error "TypeError: Card() missing required positional arguments"

/-- `if ":" in key: group, key = key.split(":", 1) else: group = "None"`. -/
def splitColonKey (key0 : String) : String × String :=
  if key0.data.contains ':' then
    ((key0.data.takeWhile (fun ch => ch != ':')).asString,
     ((key0.data.dropWhile (fun ch => ch != ':')).drop 1).asString)
  else ("None", key0)

/-- The line loop of `read_spec_file` over the decoded lines. -/
def readGo (source : String) :
    List String → List (String × String) → List (String × Card) →
    Except String (List (String × String) × List (String × Card))
  | [], groups, result => Except.ok (groups, result)
  | line :: rest, groups, result =>
    if pyStartsWith line "#" then readGo source rest groups result
    else if (pyStripL line.data).isEmpty then readGo source rest groups result
    else if pyStartsWith line "BLANK" then
      match split line 2 with
      | [_, gid, gdesc] => readGo source rest (dictUpdate1 groups gid gdesc) result
      | _ => readGo source rest groups result
    else
      let spec0 := split line 3
      let spec := if spec0.length < 4 then spec0 ++ [" "] else spec0
      match spec with
      | [] => Except.error "IndexError: list index out of range"
      | key0 :: tail =>
        let gk := splitColonKey key0
        let key := (gk.2.data.filter (fun ch => ch != '!')).asString
        match cardFromArgs ([source, gk.1, key] ++ tail) with
        | Except.error e => Except.error e
        | Except.ok card => readGo source rest groups (dictUpdate1 result key card)

/-- The body of `read_spec_file` applied to the decoded lines of a
successfully fetched file. -/
def read_spec_lines (source : String) (lines : List String) :
    Except String (List (String × String) × List (String × Card)) :=
  readGo source lines [] []

/-- `read_spec_file`: the HTTP fetch is modelled by a `server` association
list from URL to decoded lines; a URL the server does not hold is the
non-200 branch, which raises `FileNotFoundError(url)`. -/
def read_spec_file (server : List (String × List String)) (url source : String) :
    Except String (List (String × String) × List (String × Card)) :=
  match dictLookup server url with
  | some lines => read_spec_lines source lines
  | none => Except.error ("FileNotFoundError: " ++ url)

/-- The file loop of `combine_spec_files`. -/
def combineGo (server : List (String × List String)) (baseURL : String) :
    List String → List (String × String) → List (String × Card) →
    Except String (List (String × String) × List (String × Card))
  | [], groups, results => Except.ok (groups, results)
  | file :: rest, groups, results =>
    match read_spec_file server (baseURL ++ file ++ ".spec") file with
    | Except.error e => Except.error e
    | Except.ok (g, r) =>
      combineGo server baseURL rest (dictUpdateAll groups g) (dictUpdateAll results r)

/-- `combine_spec_files` from the source. -/
def combine_spec_files (server : List (String × List String)) (baseURL : String)
    (files : List String) :
    Except String (List (String × String) × List (String × Card)) :=
  combineGo server baseURL files [] []

/-!
The example-value annotator

`get_example_values_from_fits_header` iterates the record dict and executes
`value += [...]` where `value` is a `Card`, i.e. a NamedTuple (a Python
tuple).  Adding a list to a tuple raises `TypeError`, so the dynamic typing
of the `+` operand matters and is modelled by a small value type.  The FITS
primary header is modelled as an association list from keyword to the
stringified scalar value (`str(demoValue)`).
-/

/-- The tuple underlying a `Card` NamedTuple. -/
def cardToTuple (c : Card) : List String :=
  [c.source, c.group, c.header, c.type, c.spec, c.description, c.«example», c.notes]

/-- A Python value that is either a tuple or a list (of strings). -/
inductive PyVal where
  | tup : List String → PyVal
  | lst : List String → PyVal
deriving DecidableEq, Repr

/-- Python `+` on tuples and lists: concatenation within one kind,
`TypeError` across kinds. -/
def pyAdd : PyVal → PyVal → Except String PyVal
  | PyVal.tup a, PyVal.tup b => Except.ok (PyVal.tup (a ++ b))
  | PyVal.lst a, PyVal.lst b => Except.ok (PyVal.lst (a ++ b))
  | PyVal.tup _, PyVal.lst _ =>
    Except.error "TypeError: can only concatenate tuple (not \"list\") to tuple"
  | PyVal.lst _, PyVal.tup _ =>
    Except.error "TypeError: can only concatenate list (not \"tuple\") to list"

/-- The `for key, value in result.items()` loop of the annotator. -/
def annotateGo (header : List (String × String)) :
    List (String × Card) → Except String Unit
  | [] => Except.ok ()
  | (key, card) :: rest =>
    let value := PyVal.tup (cardToTuple card)
    let step :=
      match dictLookup header key with
      | some demoValue => pyAdd value (PyVal.lst [demoValue])
      | none => pyAdd value (PyVal.lst ["MISSING"])
    match step with
    | Except.error e => Except.error e
    | Except.ok _ => annotateGo header rest

/-- `get_example_values_from_fits_header` with the image's primary header
modelled as a keyword-to-string mapping. -/
def get_example_values_from_fits_header (header : List (String × String))
    (result : List (String × Card)) : Except String Unit :=
  annotateGo header result

/-!
`escape_latex`

Every pattern of the replacement dict is a single character, so each
`str.replace` is a character-by-character expansion, applied in the dict's
insertion order (backslash first).  Literal braces are written with `\x7b`
and `\x7d` escapes throughout this file.
-/

/-- The `replacements` dict of `escape_latex`, in iteration order. -/
def latexReplacements : List (Char × String) :=
  [('\\', "\\textbackslash\x7b\x7d"),
   ('&', "\\&"),
   ('%', "\\%"),
   ('$', "\\$"),
   ('#', "\\#"),
   ('_', "\\_"),
   ('\x7b', "\\\x7b"),
   ('\x7d', "\\\x7d"),
   ('~', "\\textasciitilde\x7b\x7d"),
   ('^', "\\textasciicircum\x7b\x7d")]

/-- One `text.replace(old, new)` with a single-character pattern. -/
def replaceChar (l : List Char) (pat : Char) (rep : List Char) : List Char :=
  l.flatMap (fun c => if c = pat then rep else [c])

/-- `escape_latex` from the source. -/
def escape_latex (text : String) : String :=
  (latexReplacements.foldl (fun t pr => replaceChar t pr.1 pr.2.data) text.data).asString

/-- The composite effect of the ten substitutions of `escape_latex` on one
character of the original input (proved below: `escape_latex` is the
concatenation of this expansion over the input).  Every LaTeX special
character is escaped exactly once: the backslash each substitution inserts
appears only after the backslash pass has already run, so it is never
escaped again, and the braces inserted by the tilde and circumflex
replacement texts appear only after the brace passes.  The single
exception is the backslash character itself: the braces of its replacement
text `\textbackslash{}` are inserted before the brace passes run, so they
are escaped again, giving `\textbackslash\{\}`. -/
def escapeChar (c : Char) : List Char :=
  if c = '\\' then "\\textbackslash\\\x7b\\\x7d".data
  else if c = '&' then "\\&".data
  else if c = '%' then "\\%".data
  else if c = '$' then "\\$".data
  else if c = '#' then "\\#".data
  else if c = '_' then "\\_".data
  else if c = '\x7b' then "\\\x7b".data
  else if c = '\x7d' then "\\\x7d".data
  else if c = '~' then "\\textasciitilde\x7b\x7d".data
  else if c = '^' then "\\textasciicircum\x7b\x7d".data
  else [c]

/-!
`get_header_version` and `write_as_latex`
-/

/-- The scan of `get_header_version` over `specs.values()`. -/
def ghvGo : List Card → String
  | [] => "Unknown"
  | c :: rest => if c.header = "HEADVER" then c.spec else ghvGo rest

/-- `get_header_version` from the source: the `spec` of the first card in
insertion order whose header is `HEADVER`, else `"Unknown"`. -/
def get_header_version (specs : List (String × Card)) : String :=
  ghvGo (specs.map Prod.snd)

/-- The effect of the grouping loop on the `header_version` local: every
`HEADVER` card overwrites it, so the last one wins. -/
def hvFold (cards : List Card) (hv : String) : String :=
  cards.foldl (fun v c => if c.header = "HEADVER" then c.spec else v) hv

/-- Seeding of `grouped_specs`: the `"None"` bucket first, then one empty
bucket per supplied group in iteration order. -/
def seedGroups (groups : List (String × String)) : List (String × List Card) :=
  groups.foldl (fun acc p => dictUpdate1 acc p.1 []) [("None", [])]

/-- The grouping loop of `write_as_latex`.  `grouped_specs[group]` on a
group id that is not a key raises `KeyError`; there is no bucket creation.
The loop also tracks the `header_version` override. -/
def fillGroups :
    List (String × List Card) → String → List Card →
    Except String (List (String × List Card) × String)
  | grouped, hv, [] => Except.ok (grouped, hv)
  | grouped, hv, card :: rest =>
    match dictLookup grouped card.group with
    | none => Except.error ("KeyError: " ++ card.group)
    | some bucket =>
      fillGroups (dictUpdate1 grouped card.group (bucket ++ [card]))
        (if card.header = "HEADVER" then card.spec else hv) rest

/-- `description = group_name + " Group"` / `"No Group Assigned"` fallback
for a missing (`None`) or empty (falsy) description. -/
def groupFallback (gn : String) : String :=
  if gn = "None" then "No Group Assigned" else gn ++ " Group"

/-- Length and remainder of the leading run of `-` characters. -/
def dashSpan : List Char → Nat × List Char
  | [] => (0, [])
  | c :: cs => if c = '-' then ((dashSpan cs).1 + 1, (dashSpan cs).2) else (0, c :: cs)

/-- `re.sub("--+", "", description)`: every maximal run of two or more
dashes is deleted (a lone dash survives).  Fueled to keep the recursion
structural. -/
def rdrGo : Nat → List Char → List Char
  | 0, l => l
  | _ + 1, [] => []
  | fuel + 1, c :: cs =>
    if c = '-' then
      if 2 ≤ (dashSpan (c :: cs)).1 then rdrGo fuel (dashSpan (c :: cs)).2
      else c :: rdrGo fuel cs
    else c :: rdrGo fuel cs

/-- `re.sub("--+", "", ·)` on a character list. -/
def removeDashRuns (l : List Char) : List Char :=
  rdrGo l.length l

/-- One table row: header with `.` replaced by a space, type and
description, each LaTeX-escaped. -/
def renderRow (c : Card) : String :=
  escape_latex ((c.header.data.map (fun ch => if ch = '.' then ' ' else ch)).asString) ++
    " & " ++ escape_latex c.type ++ " & " ++ escape_latex c.description ++ " \\\\\n"

/-- The `subsubsection` + `tabular` block for one non-empty bucket (empty
buckets emit nothing). -/
def renderGroupBlock (groups : List (String × String)) (gn : String)
    (cards : List Card) : String :=
  if cards.isEmpty then ""
  else
    let d0 :=
      match dictLookup groups gn with
      | some d => if d = "" then groupFallback gn else d
      | none => groupFallback gn
    let d1 := escape_latex (pyStrip (removeDashRuns d0.data).asString)
    "\n\\subsubsection\x7b" ++ d1 ++ "\x7d\n\n" ++
      "\n\\begin\x7btabular\x7d\x7bl l l l l\x7d\n\\hline\nHeader & Type & Description \\\\\n\\hline\n" ++
      String.join (cards.map renderRow) ++
      "\\hline\n\\end\x7btabular\x7d\n\n"

/-- `write_as_latex` from the source, producing the text written to the
output file (or the exception that aborts it).  The version line is printed
after the grouping loop has run, so a `HEADVER` record overrides the
passed-in version before anything is written. -/
def write_as_latex (groups : List (String × String)) (specs : List (String × Card))
    (header_version : String) : Except String String :=
  match fillGroups (seedGroups groups) header_version (specs.map Prod.snd) with
  | Except.error e => Except.error e
  | Except.ok (grouped, hv) =>
    Except.ok ("Header Version: " ++ hv ++ "\n" ++
      String.join (grouped.map (fun p => renderGroupBlock groups p.1 p.2)))

/-!
The driver
-/

/-- The module-level `baseURL` literal. -/
def baseURL : String :=
  "https://lsst-camera-dev.slac.stanford.edu/RestFileServer/rest/version/download/misc/spec-files-combined/"

/-- Source list of the lsstcam primary build. -/
def lsstcam_primary_files : List String :=
  ["primary-groups", "merged-primary", "lsstcam-primary", "header-service-primary",
   "filter"]

/-- Source list of the auxtel primary build. -/
def auxtel_primary_files : List String :=
  ["primary-groups", "merged-primary", "ats-primary", "header-service-primary",
   "ats-header-service-primary"]

/-- Source list of the amplifier build. -/
def amplifier_files : List String :=
  ["extended"]

/-- The module-level driver code: three builds in sequence.  The header
version is computed once, from the first build's combined records, and the
same string is passed to all three `write_as_latex` calls; the group dict
accumulates across builds.  Returns the three rendered output files. -/
def driver (server : List (String × List String)) :
    Except String (String × String × String) :=
  match combine_spec_files server baseURL lsstcam_primary_files with
  | Except.error e => Except.error e
  | Except.ok (groups, result) =>
    let header_version := get_header_version result
    match write_as_latex groups result header_version with
    | Except.error e => Except.error e
    | Except.ok out1 =>
      match combine_spec_files server baseURL auxtel_primary_files with
      | Except.error e => Except.error e
      | Except.ok (at_groups, result2) =>
        let groups2 := dictUpdateAll groups at_groups
        match write_as_latex groups2 result2 header_version with
        | Except.error e => Except.error e
        | Except.ok out2 =>
          match combine_spec_files server baseURL amplifier_files with
          | Except.error e => Except.error e
          | Except.ok (amp_groups, result3) =>
            let groups3 := dictUpdateAll groups2 amp_groups
            match write_as_latex groups3 result3 header_version with
            | Except.error e => Except.error e
            | Except.ok out3 => Except.ok (out1, out2, out3)

/-!
Helper lemmas: association-list dictionaries
-/

/-- First-some choice on options (`a` if it is `some`, else `b`). -/
def oget {α : Type} : Option α → Option α → Option α
  | some v, _ => some v
  | none, b => b

theorem oget_none_left {α : Type} (b : Option α) : oget none b = b := rfl

theorem oget_none_right {α : Type} (a : Option α) : oget a none = a := by
  cases a <;> rfl

theorem oget_assoc {α : Type} (a b c : Option α) :
    oget (oget a b) c = oget a (oget b c) := by
  cases a <;> cases b <;> rfl

theorem dictLookup_update1 {α : Type} (d : List (String × α)) (k k' : String) (v : α) :
    dictLookup (dictUpdate1 d k v) k' = if k = k' then some v else dictLookup d k' := by
  induction d with
  | nil => simp [dictUpdate1, dictLookup]
  | cons p rest ih =>
    by_cases hp : p.1 = k
    · subst hp
      simp only [dictUpdate1, if_pos rfl, dictLookup]
      by_cases hk : p.1 = k' <;> simp [hk]
    · simp only [dictUpdate1, if_neg hp, dictLookup, ih]
      by_cases hq : p.1 = k' <;> by_cases hk : k = k' <;> simp [hq, hk]
      exact absurd (hq.trans hk.symm) hp

theorem dictLookup_eq_none_iff {α : Type} (d : List (String × α)) (k : String) :
    dictLookup d k = none ↔ ∀ p ∈ d, p.1 ≠ k := by
  induction d with
  | nil => simp [dictLookup]
  | cons p rest ih =>
    by_cases hp : p.1 = k <;> simp [dictLookup, hp, ih]

/-- The value the key `k` ends up with after inserting the bindings of a
list one by one, i.e. its last binding in the list (if any). -/
def lastVal {α : Type} (e : List (String × α)) (k : String) : Option α :=
  e.foldl (fun acc p => if p.1 = k then some p.2 else acc) none

theorem lastVal_from {α : Type} (e : List (String × α)) (k : String)
    (init : Option α) :
    e.foldl (fun acc p => if p.1 = k then some p.2 else acc) init =
      oget (lastVal e k) init := by
  induction e generalizing init with
  | nil => simp [lastVal, oget]
  | cons p e ih =>
    simp only [lastVal, List.foldl_cons] at *
    rw [ih, ih (if p.1 = k then some p.2 else none)]
    rcases hL : List.foldl (fun acc p => if p.1 = k then some p.2 else acc) none e with _ | v <;>
      by_cases hp : p.1 = k <;> simp [hL, hp, oget]

theorem lastVal_cons {α : Type} (p : String × α) (e : List (String × α)) (k : String) :
    lastVal (p :: e) k = oget (lastVal e k) (if p.1 = k then some p.2 else none) := by
  simp only [lastVal, List.foldl_cons]
  exact lastVal_from e k _

theorem lastVal_eq_none {α : Type} (e : List (String × α)) (k : String)
    (h : ∀ p ∈ e, p.1 ≠ k) : lastVal e k = none := by
  induction e with
  | nil => rfl
  | cons p e ih =>
    rw [lastVal_cons, if_neg (h p (by simp)), ih (fun q hq => h q (by simp [hq]))]
    rfl

theorem dictLookup_updateAll {α : Type} (d e : List (String × α)) (k : String) :
    dictLookup (dictUpdateAll d e) k = oget (lastVal e k) (dictLookup d k) := by
  induction e generalizing d with
  | nil => simp [dictUpdateAll, lastVal, oget]
  | cons p e ih =>
    show dictLookup (dictUpdateAll (dictUpdate1 d p.1 p.2) e) k = _
    rw [ih, dictLookup_update1, lastVal_cons]
    rcases hL : lastVal e k with _ | v <;> by_cases hp : p.1 = k <;> simp [hL, hp, oget]

/-- The keys of the dictionary are pairwise distinct (true of every dict
the program builds). -/
def keysNodup {α : Type} (d : List (String × α)) : Prop :=
  List.Pairwise (fun p q => p.1 ≠ q.1) d

theorem lastVal_eq_dictLookup {α : Type} (e : List (String × α)) (k : String)
    (h : keysNodup e) : lastVal e k = dictLookup e k := by
  induction e with
  | nil => rfl
  | cons p e ih =>
    simp only [keysNodup, List.pairwise_cons] at h
    rw [lastVal_cons, dictLookup]
    by_cases hp : p.1 = k
    · have hnone : lastVal e k = none :=
        lastVal_eq_none e k (fun q hq => fun hqk => (h.1 q hq) (hp.trans hqk.symm))
      rw [if_pos hp, if_pos hp, hnone]
      rfl
    · rw [if_neg hp, if_neg hp, oget_none_right, ih h.2]

theorem mem_update1_keys {α : Type} (d : List (String × α)) (k : String) (v : α)
    (q : String × α) (hq : q ∈ dictUpdate1 d k v) :
    q.1 = k ∨ q.1 ∈ d.map Prod.fst := by
  induction d with
  | nil => simp [dictUpdate1] at hq; simp [hq]
  | cons p rest ih =>
    by_cases hp : p.1 = k
    · rw [dictUpdate1, if_pos hp] at hq
      rcases List.mem_cons.mp hq with h | h
      · left; rw [h, hp]
      · right; exact List.mem_map.mpr ⟨q, List.mem_cons_of_mem p h, rfl⟩
    · rw [dictUpdate1, if_neg hp] at hq
      rcases List.mem_cons.mp hq with h | h
      · right; rw [h]; simp
      · rcases ih h with h' | h'
        · exact Or.inl h'
        · right; simp [h']

theorem keysNodup_update1 {α : Type} (d : List (String × α)) (k : String) (v : α)
    (h : keysNodup d) : keysNodup (dictUpdate1 d k v) := by
  induction d with
  | nil => simp [dictUpdate1, keysNodup]
  | cons p rest ih =>
    rw [keysNodup, List.pairwise_cons] at h
    by_cases hp : p.1 = k
    · rw [keysNodup, dictUpdate1, if_pos hp, List.pairwise_cons]
      exact ⟨h.1, h.2⟩
    · rw [keysNodup, dictUpdate1, if_neg hp, List.pairwise_cons]
      refine ⟨fun q hq => ?_, ih h.2⟩
      rcases mem_update1_keys rest k v q hq with h' | h'
      · rw [h']; exact hp
      · rcases List.mem_map.mp h' with ⟨q', hq', hq1⟩
        rw [← hq1]
        exact h.1 q' hq'

/-!
Helper lemmas: the parser builds duplicate-free dictionaries
-/

theorem readGo_nodup (source : String) (lines : List String) :
    ∀ groups result gs rs, keysNodup groups → keysNodup result →
      readGo source lines groups result = Except.ok (gs, rs) →
      keysNodup gs ∧ keysNodup rs := by
  induction lines with
  | nil =>
    intro groups result gs rs hg hr h
    simp only [readGo] at h
    injection h with h
    injection h with h1 h2
    exact ⟨h1 ▸ hg, h2 ▸ hr⟩
  | cons line rest ih =>
    intro groups result gs rs hg hr h
    simp only [readGo] at h
    split at h
    · exact ih groups result gs rs hg hr h
    · split at h
      · exact ih groups result gs rs hg hr h
      · split at h
        · split at h
          · exact ih _ result gs rs (keysNodup_update1 _ _ _ hg) hr h
          · exact ih groups result gs rs hg hr h
        · split at h
          · exact absurd h (by simp)
          · split at h
            · exact absurd h (by simp)
            · exact ih groups _ gs rs hg (keysNodup_update1 _ _ _ hr) h

theorem read_spec_file_nodup (server : List (String × List String))
    (url source : String)
    (g : List (String × String)) (r : List (String × Card))
    (h : read_spec_file server url source = Except.ok (g, r)) :
    keysNodup g ∧ keysNodup r := by
  unfold read_spec_file at h
  split at h
  · exact readGo_nodup source _ [] [] g r List.Pairwise.nil List.Pairwise.nil h
  · exact absurd h (by simp)

/-!
Helper lemmas: `combine_spec_files` and the last-writer-wins merge
-/

/-- Modelled from the spec's words (for comparison with the code): the
combined group mapping "holds the value from whichever file is listed
later", i.e. the value of `k` in the parse of the last file that defines
it. -/
def combinedGroupsSpec (server : List (String × List String)) (baseURL : String)
    (files : List String) (k : String) : Option String :=
  files.reverse.findSome? (fun f =>
    match read_spec_file server (baseURL ++ f ++ ".spec") f with
    | Except.ok (g, _) => dictLookup g k
    | Except.error _ => none)

/-- Modelled from the spec's words (for comparison with the code): the
combined record mapping holds, for each header key, the record from the
last listed file that defines that header. -/
def combinedRecordsSpec (server : List (String × List String)) (baseURL : String)
    (files : List String) (k : String) : Option Card :=
  files.reverse.findSome? (fun f =>
    match read_spec_file server (baseURL ++ f ++ ".spec") f with
    | Except.ok (_, r) => dictLookup r k
    | Except.error _ => none)

theorem findSome?_append {α β : Type} (l₁ l₂ : List α) (f : α → Option β) :
    (l₁ ++ l₂).findSome? f = oget (l₁.findSome? f) (l₂.findSome? f) := by
  induction l₁ with
  | nil => simp [oget]
  | cons a l₁ ih =>
    rcases ha : f a with _ | v <;> simp [List.findSome?_cons, ha, ih, oget]

theorem combinedGroupsSpec_cons (server : List (String × List String))
    (baseURL f : String) (files : List String) (k : String) :
    combinedGroupsSpec server baseURL (f :: files) k =
      oget (combinedGroupsSpec server baseURL files k)
        (match read_spec_file server (baseURL ++ f ++ ".spec") f with
          | Except.ok (g, _) => dictLookup g k
          | Except.error _ => none) := by
  simp only [combinedGroupsSpec, List.reverse_cons, findSome?_append]
  congr 1
  rcases hrf : read_spec_file server (baseURL ++ f ++ ".spec") f with e | ⟨g, r⟩ <;>
    simp [List.findSome?, hrf]
  rcases hk : dictLookup g k with _ | v <;> simp [hk]

theorem combinedRecordsSpec_cons (server : List (String × List String))
    (baseURL f : String) (files : List String) (k : String) :
    combinedRecordsSpec server baseURL (f :: files) k =
      oget (combinedRecordsSpec server baseURL files k)
        (match read_spec_file server (baseURL ++ f ++ ".spec") f with
          | Except.ok (_, r) => dictLookup r k
          | Except.error _ => none) := by
  simp only [combinedRecordsSpec, List.reverse_cons, findSome?_append]
  congr 1
  rcases hrf : read_spec_file server (baseURL ++ f ++ ".spec") f with e | ⟨g, r⟩ <;>
    simp [List.findSome?, hrf]
  rcases hk : dictLookup r k with _ | v <;> simp [hk]

theorem combineGo_lookup (server : List (String × List String)) (baseURL : String)
    (files : List String) :
    ∀ gacc racc gs rs,
      combineGo server baseURL files gacc racc = Except.ok (gs, rs) →
      (∀ k, dictLookup gs k =
        oget (combinedGroupsSpec server baseURL files k) (dictLookup gacc k)) ∧
      (∀ k, dictLookup rs k =
        oget (combinedRecordsSpec server baseURL files k) (dictLookup racc k)) := by
  induction files with
  | nil =>
    intro gacc racc gs rs h
    simp only [combineGo] at h
    injection h with h
    injection h with h1 h2
    subst h1; subst h2
    simp [combinedGroupsSpec, combinedRecordsSpec, oget]
  | cons f files ih =>
    intro gacc racc gs rs h
    simp only [combineGo] at h
    rcases hrf : read_spec_file server (baseURL ++ f ++ ".spec") f with e | gr
    · rw [hrf] at h; exact absurd h (by simp)
    · rw [hrf] at h
      obtain ⟨g, r⟩ := gr
      have hnodup := read_spec_file_nodup server _ f g r hrf
      obtain ⟨ihg, ihr⟩ := ih (dictUpdateAll gacc g) (dictUpdateAll racc r) gs rs h
      constructor
      · intro k
        rw [ihg k, dictLookup_updateAll, lastVal_eq_dictLookup g k hnodup.1,
          combinedGroupsSpec_cons, hrf, oget_assoc]
      · intro k
        rw [ihr k, dictLookup_updateAll, lastVal_eq_dictLookup r k hnodup.2,
          combinedRecordsSpec_cons, hrf, oget_assoc]

/-!
Helper lemmas: `write_as_latex`
-/

theorem fillGroups_ok_hv (cards : List Card) :
    ∀ grouped hv g2 hv2,
      fillGroups grouped hv cards = Except.ok (g2, hv2) →
      hv2 = hvFold cards hv := by
  induction cards with
  | nil =>
    intro grouped hv g2 hv2 h
    simp only [fillGroups] at h
    injection h with h
    injection h with h1 h2
    simp [hvFold, h2.symm]
  | cons card rest ih =>
    intro grouped hv g2 hv2 h
    simp only [fillGroups] at h
    rcases hl : dictLookup grouped card.group with _ | bucket
    · rw [hl] at h; exact absurd h (by simp)
    · rw [hl] at h
      rw [ih _ _ _ _ h]
      simp [hvFold]

theorem hvFold_no_headver (cards : List Card) (hv : String)
    (h : ∀ c ∈ cards, c.header ≠ "HEADVER") : hvFold cards hv = hv := by
  induction cards with
  | nil => rfl
  | cons c rest ih =>
    have hc : c.header ≠ "HEADVER" := h c (by simp)
    show hvFold rest (if c.header = "HEADVER" then c.spec else hv) = hv
    rw [if_neg hc]
    exact ih (fun q hq => h q (by simp [hq]))

theorem hvFold_fixed (cards : List Card) (c : Card)
    (h : ∀ c2 ∈ cards, c2.header = "HEADVER" → c2 = c) :
    hvFold cards c.spec = c.spec := by
  induction cards with
  | nil => rfl
  | cons c0 rest ih =>
    show hvFold rest (if c0.header = "HEADVER" then c0.spec else c.spec) = c.spec
    by_cases h0 : c0.header = "HEADVER"
    · rw [if_pos h0, h c0 (by simp) h0]
      exact ih (fun q hq hq2 => h q (by simp [hq]) hq2)
    · rw [if_neg h0]
      exact ih (fun q hq hq2 => h q (by simp [hq]) hq2)

theorem hvFold_unique (cards : List Card) (c : Card) (hv : String)
    (hmem : c ∈ cards) (hh : c.header = "HEADVER")
    (huniq : ∀ c2 ∈ cards, c2.header = "HEADVER" → c2 = c) :
    hvFold cards hv = c.spec := by
  induction cards with
  | nil => exact absurd hmem (by simp)
  | cons c0 rest ih =>
    show hvFold rest (if c0.header = "HEADVER" then c0.spec else hv) = c.spec
    by_cases h0 : c0.header = "HEADVER"
    · rw [if_pos h0, huniq c0 (by simp) h0]
      exact hvFold_fixed rest c (fun q hq hq2 => huniq q (by simp [hq]) hq2)
    · rw [if_neg h0]
      rcases List.mem_cons.mp hmem with h | h
      · exact absurd (h ▸ hh) h0
      · exact ih h (fun q hq hq2 => huniq q (by simp [hq]) hq2)

theorem write_as_latex_ok_version (groups : List (String × String))
    (specs : List (String × Card)) (hv out : String)
    (h : write_as_latex groups specs hv = Except.ok out) :
    ∃ rest, out = "Header Version: " ++ hvFold (specs.map Prod.snd) hv ++ "\n" ++ rest := by
  unfold write_as_latex at h
  rcases hf : fillGroups (seedGroups groups) hv (specs.map Prod.snd) with e | ⟨grouped, hv2⟩
  · rw [hf] at h; exact absurd h (by simp)
  · rw [hf] at h
    injection h with h
    refine ⟨String.join (grouped.map fun p => renderGroupBlock groups p.1 p.2), ?_⟩
    rw [← h, fillGroups_ok_hv _ _ _ _ _ hf]

theorem fillGroups_missing_group (cards : List Card) :
    ∀ grouped hv (c : Card), c ∈ cards →
      dictLookup grouped c.group = none →
      ∃ e, fillGroups grouped hv cards = Except.error e := by
  induction cards with
  | nil => intro _ _ _ hmem _; exact absurd hmem (by simp)
  | cons c0 rest ih =>
    intro grouped hv c hmem habs
    rcases h0 : dictLookup grouped c0.group with _ | bucket
    · exact ⟨"KeyError: " ++ c0.group, by simp [fillGroups, h0]⟩
    · have hne : c0.group ≠ c.group := by
        intro hgg
        rw [hgg] at h0
        rw [h0] at habs
        exact absurd habs (by simp)
      have hmem' : c ∈ rest := by
        rcases List.mem_cons.mp hmem with h | h
        · exact absurd (congrArg Card.group h.symm) hne
        · exact h
      have habs' :
          dictLookup (dictUpdate1 grouped c0.group (bucket ++ [c0])) c.group = none := by
        rw [dictLookup_update1, if_neg hne]
        exact habs
      obtain ⟨e, he⟩ := ih _ (if c0.header = "HEADVER" then c0.spec else hv) c hmem' habs'
      exact ⟨e, by simp [fillGroups, h0, he]⟩

theorem seedFold_lookup_none (l : List (String × String)) :
    ∀ (init : List (String × List Card)) (g : String),
      dictLookup init g = none → (∀ p ∈ l, p.1 ≠ g) →
      dictLookup (l.foldl (fun acc p => dictUpdate1 acc p.1 []) init) g = none := by
  induction l with
  | nil => intro init g h _; exact h
  | cons p rest ih =>
    intro init g h hall
    show dictLookup (rest.foldl (fun acc p => dictUpdate1 acc p.1 []) (dictUpdate1 init p.1 [])) g = none
    apply ih
    · rw [dictLookup_update1, if_neg (hall p (by simp))]
      exact h
    · exact fun q hq => hall q (by simp [hq])

theorem seedGroups_lookup_none (groups : List (String × String)) (g : String)
    (hg : g ≠ "None") (habs : dictLookup groups g = none) :
    dictLookup (seedGroups groups) g = none := by
  have hmem := (dictLookup_eq_none_iff groups g).mp habs
  have hinit : dictLookup [("None", ([] : List Card))] g = none := by
    simp [dictLookup, Ne.symm hg]
  exact seedFold_lookup_none groups [("None", [])] g hinit hmem

/-!
Helper lemmas: the tokenizer
-/

theorem matchTok_nonquote (c : Char) (cs : List Char) (hq : c ≠ '"') :
    matchTok (c :: cs) =
      ((c :: cs).takeWhile (fun ch => !pyIsSpace ch),
       (c :: cs).dropWhile (fun ch => !pyIsSpace ch)) := by
  simp [matchTok, hq]

theorem matchTok_quote (cs i r : List Char) (h : quoteScan cs = some (i, r)) :
    matchTok ('"' :: cs) = ('"' :: (i ++ ['"']), r) := by
  simp [matchTok, h]

theorem scanClose_no_quote (l r : List Char)
    (h : ∀ c ∈ l, c ≠ '"' ∧ c ≠ '\n') :
    scanClose (l ++ '"' :: r) = some (l, r) := by
  induction l with
  | nil => simp [scanClose]
  | cons c cs ih =>
    have hc := h c (by simp)
    rw [List.cons_append, scanClose, if_neg hc.1, if_neg hc.2,
      ih (fun q hq => h q (by simp [hq]))]

theorem quoteScan_closed (i r : List Char) (hne : i ≠ [])
    (h : ∀ c ∈ i, c ≠ '"' ∧ c ≠ '\n') :
    quoteScan (i ++ '"' :: r) = some (i, r) := by
  rcases i with _ | ⟨c, cs⟩
  · exact absurd rfl hne
  · have hc := h c (by simp)
    rw [List.cons_append, quoteScan, if_neg hc.2,
      scanClose_no_quote cs r (fun q hq => h q (by simp [hq]))]

theorem splitGo_space (fuel : Nat) (c : Char) (cs : List Char)
    (index maxIndex : Nat) (hsp : pyIsSpace c = true) :
    splitGo (fuel + 1) (c :: cs) index maxIndex = splitGo fuel cs index maxIndex := by
  simp [splitGo, hsp]

theorem splitGo_last_token (fuel : Nat) (c : Char) (cs : List Char)
    (index maxIndex : Nat) (hsp : pyIsSpace c = false)
    (hmax : maxIndex ≤ index + 1) :
    splitGo (fuel + 1) (c :: cs) index maxIndex =
      [(matchTok (c :: cs)).1, (matchTok (c :: cs)).2.dropWhile pyIsSpace] := by
  simp [splitGo, hsp, hmax]

theorem splitGo_mid_token (fuel : Nat) (c : Char) (cs : List Char)
    (index maxIndex : Nat) (hsp : pyIsSpace c = false)
    (hmax : ¬ maxIndex ≤ index + 1) :
    splitGo (fuel + 1) (c :: cs) index maxIndex =
      (matchTok (c :: cs)).1 ::
        splitGo fuel ((matchTok (c :: cs)).2.dropWhile pyIsSpace) (index + 1) maxIndex := by
  simp [splitGo, hsp, hmax]

theorem splitGo_head (fuel : Nat) (c : Char) (cs : List Char)
    (index maxIndex : Nat) (hsp : pyIsSpace c = false) :
    (splitGo (fuel + 1) (c :: cs) index maxIndex).head? = some (matchTok (c :: cs)).1 := by
  by_cases hmax : maxIndex ≤ index + 1
  · rw [splitGo_last_token fuel c cs index maxIndex hsp hmax]; rfl
  · rw [splitGo_mid_token fuel c cs index maxIndex hsp hmax]; rfl

theorem takeWhile_all_nonspace (l : List Char)
    (h : ∀ c ∈ l, pyIsSpace c = false) :
    l.takeWhile (fun ch => !pyIsSpace ch) = l := by
  induction l with
  | nil => rfl
  | cons c cs ih =>
    rw [List.takeWhile_cons]
    simp only [h c (by simp), Bool.not_false, if_true]
    rw [ih (fun q hq => h q (by simp [hq]))]

theorem dropWhile_all_nonspace (l : List Char)
    (h : ∀ c ∈ l, pyIsSpace c = false) :
    l.dropWhile (fun ch => !pyIsSpace ch) = [] := by
  induction l with
  | nil => rfl
  | cons c cs ih =>
    rw [List.dropWhile_cons]
    simp only [h c (by simp), Bool.not_false, if_true]
    exact ih (fun q hq => h q (by simp [hq]))

theorem dropWhile_space_id (l : List Char)
    (h : ∀ c ∈ l, pyIsSpace c = false) :
    l.dropWhile pyIsSpace = l := by
  rcases l with _ | ⟨c, cs⟩
  · rfl
  · rw [List.dropWhile_cons]
    simp [h c (by simp)]

theorem dropWhile_ne_nil_of_mem (l : List Char) (p : Char → Bool) (x : Char)
    (hx : x ∈ l) (hpx : p x = false) : l.dropWhile p ≠ [] := by
  induction l with
  | nil => exact absurd hx (by simp)
  | cons c cs ih =>
    rw [List.dropWhile_cons]
    by_cases hc : p c = true
    · simp only [hc, if_true]
      rcases List.mem_cons.mp hx with h | h
      · exact absurd (h ▸ hpx) (by simp [hc])
      · exact ih h
    · simp [hc]

theorem pyStripL_cons_nonempty (c : Char) (l : List Char)
    (h : pyIsSpace c = false) : (pyStripL (c :: l)).isEmpty = false := by
  rw [pyStripL, List.dropWhile_cons]
  simp only [h, Bool.false_eq_true, if_false]
  have hmem : c ∈ (c :: l).reverse := by simp
  have hne := dropWhile_ne_nil_of_mem ((c :: l).reverse) pyIsSpace c hmem h
  rcases hD : ((c :: l).reverse).dropWhile pyIsSpace with _ | ⟨d, ds⟩
  · exact absurd hD hne
  · simp [hD]

/-!
Claim theorems
-/

/-- C1 (counterexample): `write_as_latex` does not complete when a record's
group id (`G2`) is absent from the supplied group mapping — the grouping
loop indexes the missing bucket and raises `KeyError`; no table is
emitted. -/
theorem write_as_latex_unseeded_group_counterexample :
    write_as_latex [("G1", "The G1 group")]
      [("H", ⟨"src", "G2", "H", "FLOAT", "1.0", "desc", "", ""⟩)] "1.0" =
      Except.error "KeyError: G2" := rfl

/-- C1 (amended): for every group mapping and record mapping, if some
record's group id is neither `"None"` nor a key of the supplied group
mapping, `write_as_latex` fails with an exception (a `KeyError`): no new
bucket is created and no table is emitted for it. -/
theorem write_as_latex_unseeded_group_fails (groups : List (String × String))
    (specs : List (String × Card)) (version : String) (c : Card)
    (hc : c ∈ specs.map Prod.snd) (hg : c.group ≠ "None")
    (habs : dictLookup groups c.group = none) :
    ∃ e, write_as_latex groups specs version = Except.error e := by
  obtain ⟨e, he⟩ := fillGroups_missing_group (specs.map Prod.snd) (seedGroups groups)
    version c hc (seedGroups_lookup_none groups c.group hg habs)
  exact ⟨e, by simp [write_as_latex, he]⟩

/-- C1 (witness): the amended theorem applied at a concrete input. -/
theorem write_as_latex_unseeded_group_fails_witness :
    ∃ e, write_as_latex [("G1", "The G1 group")]
      [("H", ⟨"src", "G2", "H", "FLOAT", "1.0", "desc", "", ""⟩)] "1.0" =
      Except.error e :=
  write_as_latex_unseeded_group_fails [("G1", "The G1 group")]
    [("H", ⟨"src", "G2", "H", "FLOAT", "1.0", "desc", "", ""⟩)] "1.0"
    ⟨"src", "G2", "H", "FLOAT", "1.0", "desc", "", ""⟩
    (by simp) (by decide) (by rfl)

/-- C2: a record line with fewer than three tokens (here `KEY FLOAT`) is
padded with a single blank field, but the padded argument list still has
only five of the six required `Card` fields, so the parse aborts with a
`TypeError` instead of creating a record — the code contradicts the intent
of its own padding branch. -/
theorem read_spec_short_line_typeerror :
    read_spec_lines "src" ["KEY FLOAT"] =
      Except.error "TypeError: Card() missing required positional arguments" ∧
    read_spec_lines "src" ["KEY"] =
      Except.error "TypeError: Card() missing required positional arguments" := ⟨rfl, rfl⟩

/-- C5: the annotator executes `value += [...]` where `value` is a `Card`
NamedTuple, i.e. a tuple; adding a list to a tuple raises `TypeError` on
the first record, whether or not its key is present in the image header, so
the annotator never completes on a non-empty record mapping. -/
theorem annotator_typeerror :
    get_example_values_from_fits_header [("TEMP", "20.1")]
      [("TEMP", ⟨"src", "None", "TEMP", "FLOAT", "20.0", "temp", "", ""⟩)] =
      Except.error "TypeError: can only concatenate tuple (not \"list\") to tuple" ∧
    get_example_values_from_fits_header []
      [("TEMP", ⟨"src", "None", "TEMP", "FLOAT", "20.0", "temp", "", ""⟩)] =
      Except.error "TypeError: can only concatenate tuple (not \"list\") to tuple" :=
  ⟨rfl, rfl⟩

/-- C6 (counterexample): characters introduced by `escape_latex`'s own
substitutions are not always left alone: the braces of the replacement
text `\textbackslash{}` (inserted for a backslash) are escaped again by
the later brace substitutions, yielding `\textbackslash\{\}` rather than
`\textbackslash{}`. -/
theorem escape_latex_counterexample :
    escape_latex "\\" = "\\textbackslash\\\x7b\\\x7d" ∧
    ("\\textbackslash\\\x7b\\\x7d" : String) ≠ "\\textbackslash\x7b\x7d" :=
  ⟨rfl, by decide⟩

/-- A `str.replace` with a single-character pattern acts on a singleton. -/
theorem replaceChar_single (c pat : Char) (rep : List Char) :
    replaceChar [c] pat rep = if c = pat then rep else [c] := by
  simp [replaceChar]

/-- A `str.replace` with a single-character pattern distributes over
concatenation. -/
theorem replaceChar_append (a b : List Char) (pat : Char) (rep : List Char) :
    replaceChar (a ++ b) pat rep = replaceChar a pat rep ++ replaceChar b pat rep := by
  simp [replaceChar]

/-- The whole substitution chain of `escape_latex` distributes over
concatenation. -/
theorem escapeFold_append (reps : List (Char × String)) (a b : List Char) :
    reps.foldl (fun t pr => replaceChar t pr.1 pr.2.data) (a ++ b) =
      reps.foldl (fun t pr => replaceChar t pr.1 pr.2.data) a ++
        reps.foldl (fun t pr => replaceChar t pr.1 pr.2.data) b := by
  induction reps generalizing a b with
  | nil => rfl
  | cons p reps ih =>
    simp only [List.foldl_cons]
    rw [replaceChar_append, ih]

/-- On a single character the substitution chain of `escape_latex`
produces exactly the `escapeChar` expansion. -/
theorem escapePipeline_single (c : Char) :
    latexReplacements.foldl (fun t pr => replaceChar t pr.1 pr.2.data) [c] =
      escapeChar c := by
  by_cases h1 : c = '\\'
  · subst h1; rfl
  by_cases h2 : c = '&'
  · subst h2; rfl
  by_cases h3 : c = '%'
  · subst h3; rfl
  by_cases h4 : c = '$'
  · subst h4; rfl
  by_cases h5 : c = '#'
  · subst h5; rfl
  by_cases h6 : c = '_'
  · subst h6; rfl
  by_cases h7 : c = '\x7b'
  · subst h7; rfl
  by_cases h8 : c = '\x7d'
  · subst h8; rfl
  by_cases h9 : c = '~'
  · subst h9; rfl
  by_cases h10 : c = '^'
  · subst h10; rfl
  simp [latexReplacements, replaceChar_single, escapeChar,
    h1, h2, h3, h4, h5, h6, h7, h8, h9, h10]

/-- The substitution chain of `escape_latex` is a per-character expansion:
its result is the concatenation of `escapeChar` over the input. -/
theorem escapeList_eq_flatMap (l : List Char) :
    latexReplacements.foldl (fun t pr => replaceChar t pr.1 pr.2.data) l =
      l.flatMap escapeChar := by
  induction l with
  | nil => rfl
  | cons c l ih =>
    rw [show c :: l = [c] ++ l from rfl, escapeFold_append, escapePipeline_single, ih]
    simp

theorem escape_latex_char_map (s : String) :
    escape_latex s = (s.data.flatMap escapeChar).asString := by
  show (latexReplacements.foldl (fun t pr => replaceChar t pr.1 pr.2.data) s.data).asString = _
  rw [escapeList_eq_flatMap]

/-- C6 (amended): for every input string, `escape_latex` is the
concatenation over the input of the fixed per-character expansion
`escapeChar`, in which every occurrence of a LaTeX special character is
backslash-escaped exactly once and the backslashes inserted by the
substitutions are never escaped again — with the sole exception of the
backslash character itself, whose replacement text `\textbackslash{}` has
its braces escaped again by the later brace substitutions (an input `\`
becomes `\textbackslash\{\}`); in particular escaping `50% & $5_{x}$`
escapes each of `%`, `&`, `$`, `_`, `{`, `}` exactly once. -/
theorem escape_latex_per_char_escapes (s : String) :
    escape_latex s = (s.data.flatMap escapeChar).asString ∧
    escape_latex "50% & $5_\x7bx\x7d$" = "50\\% \\& \\$5\\_\\\x7bx\\\x7d\\$" ∧
    escape_latex "\\" = "\\textbackslash\\\x7b\\\x7d" :=
  ⟨escape_latex_char_map s, rfl, rfl⟩

/-- C6 (witness): the amended theorem applied at the concrete example
string. -/
theorem escape_latex_per_char_escapes_witness :
    escape_latex "50% & $5_\x7bx\x7d$" =
      (("50% & $5_\x7bx\x7d$" : String).data.flatMap escapeChar).asString ∧
    escape_latex "50% & $5_\x7bx\x7d$" = "50\\% \\& \\$5\\_\\\x7bx\\\x7d\\$" ∧
    escape_latex "\\" = "\\textbackslash\\\x7b\\\x7d" :=
  escape_latex_per_char_escapes "50% & $5_\x7bx\x7d$"

/-- C8: the record line `GROUP1:TEMP! FLOAT 20.0 Sensor temperature in C`
parses, for any source name, to exactly one record stored under key
`TEMP`, with header `TEMP` (the `!` removed), group `GROUP1`, type
`FLOAT`, spec `20.0` and description `Sensor temperature in C`. -/
theorem record_line_example_parse (source : String) :
    read_spec_lines source ["GROUP1:TEMP! FLOAT 20.0 Sensor temperature in C"] =
      Except.ok ([],
        [("TEMP", ⟨source, "GROUP1", "TEMP", "FLOAT", "20.0",
          "Sensor temperature in C", "", ""⟩)]) := rfl

/-- C8 (witness): the parse at a concrete source name. -/
theorem record_line_example_parse_witness :
    read_spec_lines "merged-primary" ["GROUP1:TEMP! FLOAT 20.0 Sensor temperature in C"] =
      Except.ok ([],
        [("TEMP", ⟨"merged-primary", "GROUP1", "TEMP", "FLOAT", "20.0",
          "Sensor temperature in C", "", ""⟩)]) :=
  record_line_example_parse "merged-primary"

/-- C4 (counterexample): a `BLANK` line with exactly one token after the
keyword is not dropped — the tokenizer appends the empty remainder, the
length check passes, and a group entry mapping `G1` to the empty string is
created. -/
theorem blank_line_one_token_counterexample :
    read_spec_lines "src" ["BLANK G1"] = Except.ok ([("G1", "")], []) ∧
    dictLookup [("G1", "")] "G1" = some "" := ⟨rfl, rfl⟩

/-- C3 (counterexample): a double-quoted field is tokenized with its
surrounding quote characters included — `split` on `"a b" x` yields the
token `"a b"` (quotes kept), not `a b` as the claim states. -/
theorem split_quoted_token_counterexample :
    split "\"a b\" x" 3 = ["\"a b\"", "x"] ∧
    ("\"a b\"" : String) ≠ "a b" := ⟨rfl, by decide⟩

/-- C3 (amended): for every input line and `maxIndex`, a field written as a
double-quoted run is tokenized as one token that preserves the interior
whitespace of the quoted string but includes the surrounding double-quote
characters (the regex group captures the quotes). -/
theorem split_quoted_token_keeps_quotes (interior rest : List Char) (maxIndex : Nat)
    (hne : interior ≠ []) (hgood : ∀ c ∈ interior, c ≠ '"' ∧ c ≠ '\n') :
    (split (('"' :: interior ++ '"' :: rest).asString) maxIndex).head? =
      some ('"' :: interior ++ ['"']).asString := by
  show ((splitGo (('"' :: (interior ++ '"' :: rest)).length)
      ('"' :: (interior ++ '"' :: rest)) 0 maxIndex).map List.asString).head? = _
  rw [List.head?_map, List.length_cons,
    splitGo_head ((interior ++ '"' :: rest)).length '"' (interior ++ '"' :: rest) 0
      maxIndex rfl,
    matchTok_quote (interior ++ '"' :: rest) interior rest
      (quoteScan_closed interior rest hne hgood)]
  rfl

/-- C3 (witness): the amended theorem applied at the concrete line
`"a b" x` with `maxIndex = 3`. -/
theorem split_quoted_token_keeps_quotes_witness :
    (split (('"' :: ['a', ' ', 'b'] ++ '"' :: [' ', 'x']).asString) 3).head? =
      some ('"' :: ['a', ' ', 'b'] ++ ['"']).asString :=
  split_quoted_token_keeps_quotes ['a', ' ', 'b'] [' ', 'x'] 3 (by decide) (by decide)

/-- A string starting with a non-whitespace character does not strip to the
empty string. -/
theorem pyStripL_cons_ne_nil (c : Char) (l : List Char) (h : pyIsSpace c = false) :
    pyStripL (c :: l) ≠ [] := by
  intro hcontra
  have h2 := pyStripL_cons_nonempty c l h
  rw [hcontra] at h2
  simp at h2

/-- `"BLANK" ++ anything` starts with `BLANK`. -/
theorem pyStartsWith_blank (sfx : List Char) :
    pyStartsWith ("BLANK" ++ sfx.asString) "BLANK" = true := by
  cases sfx <;> rfl

/-- C4 (amended): a line `BLANK <id>` with exactly one token after the
keyword is not dropped: the tokenizer appends the empty remainder, so the
length-3 check passes and `groups[<id>] = ""` is created.  Only a `BLANK`
line with no whitespace at all (a single token, e.g. `BLANK` alone or
`BLANKfoo`) fails the length check and is silently dropped. -/
theorem blank_line_group_entries (source : String) (c0 : Char) (cs sfx : List Char) :
    ((∀ c ∈ c0 :: cs, pyIsSpace c = false ∧ c ≠ '"') →
      read_spec_lines source ["BLANK " ++ (c0 :: cs).asString] =
        Except.ok ([((c0 :: cs).asString, "")], [])) ∧
    ((∀ c ∈ sfx, pyIsSpace c = false) →
      read_spec_lines source ["BLANK" ++ sfx.asString] = Except.ok ([], [])) := by
  constructor
  · intro hgood
    have hq0 : c0 ≠ '"' := (hgood c0 (by simp)).2
    have hs0 : pyIsSpace c0 = false := (hgood c0 (by simp)).1
    have hmtB : matchTok ('B' :: 'L' :: 'A' :: 'N' :: 'K' :: ' ' :: c0 :: cs) =
        (['B', 'L', 'A', 'N', 'K'], ' ' :: c0 :: cs) := by
      rw [matchTok_nonquote 'B' ('L' :: 'A' :: 'N' :: 'K' :: ' ' :: c0 :: cs) (by decide)]
      rfl
    have hmt2 : matchTok (c0 :: cs) = (c0 :: cs, []) := by
      rw [matchTok_nonquote c0 cs hq0,
        takeWhile_all_nonspace (c0 :: cs) (fun c hc => (hgood c hc).1),
        dropWhile_all_nonspace (c0 :: cs) (fun c hc => (hgood c hc).1)]
    have hsplit : split ("BLANK " ++ (c0 :: cs).asString) 2 =
        ["BLANK", (c0 :: cs).asString, ""] := by
      show (splitGo (('L' :: 'A' :: 'N' :: 'K' :: ' ' :: c0 :: cs).length + 1)
          ('B' :: 'L' :: 'A' :: 'N' :: 'K' :: ' ' :: c0 :: cs) 0 2).map List.asString = _
      rw [splitGo_mid_token ('L' :: 'A' :: 'N' :: 'K' :: ' ' :: c0 :: cs).length 'B'
          ('L' :: 'A' :: 'N' :: 'K' :: ' ' :: c0 :: cs) 0 2 rfl (by decide), hmtB]
      have hdw : (' ' :: c0 :: cs).dropWhile pyIsSpace = c0 :: cs := by
        rw [List.dropWhile_cons]
        simp only [show pyIsSpace ' ' = true from rfl, if_true]
        exact dropWhile_space_id (c0 :: cs) (fun c hc => (hgood c hc).1)
      rw [hdw]
      show (['B', 'L', 'A', 'N', 'K'] ::
        splitGo (('A' :: 'N' :: 'K' :: ' ' :: c0 :: cs).length + 1) (c0 :: cs) 1 2).map
          List.asString = _
      rw [splitGo_last_token ('A' :: 'N' :: 'K' :: ' ' :: c0 :: cs).length c0 cs 1 2 hs0
          (by decide), hmt2]
      rfl
    have hc1 : pyStartsWith ("BLANK " ++ (c0 :: cs).asString) "#" = false := rfl
    have hc3 : pyStartsWith ("BLANK " ++ (c0 :: cs).asString) "BLANK" = true := rfl
    have hc2 : pyStripL ('B' :: 'L' :: 'A' :: 'N' :: 'K' :: ' ' :: (c0 :: cs).asString.data) ≠ [] :=
      pyStripL_cons_ne_nil 'B' ('L' :: 'A' :: 'N' :: 'K' :: ' ' :: (c0 :: cs).asString.data) rfl
    show readGo source ["BLANK " ++ (c0 :: cs).asString] [] [] = _
    simp [readGo, hc1, hc2, hc3, hsplit, dictUpdate1]
  · intro hB
    have hallB : ∀ c ∈ ('B' :: 'L' :: 'A' :: 'N' :: 'K' :: sfx), pyIsSpace c = false := by
      intro c hc
      simp only [List.mem_cons] at hc
      rcases hc with h | h | h | h | h | h
      · rw [h]; rfl
      · rw [h]; rfl
      · rw [h]; rfl
      · rw [h]; rfl
      · rw [h]; rfl
      · exact hB c h
    have hmtB2 : matchTok ('B' :: 'L' :: 'A' :: 'N' :: 'K' :: sfx) =
        ('B' :: 'L' :: 'A' :: 'N' :: 'K' :: sfx, []) := by
      rw [matchTok_nonquote 'B' ('L' :: 'A' :: 'N' :: 'K' :: sfx) (by decide),
        takeWhile_all_nonspace _ hallB, dropWhile_all_nonspace _ hallB]
    have hsplitB : split ("BLANK" ++ sfx.asString) 2 = ["BLANK" ++ sfx.asString] := by
      show (splitGo (('L' :: 'A' :: 'N' :: 'K' :: sfx).length + 1)
          ('B' :: 'L' :: 'A' :: 'N' :: 'K' :: sfx) 0 2).map List.asString = _
      rw [splitGo_mid_token ('L' :: 'A' :: 'N' :: 'K' :: sfx).length 'B'
          ('L' :: 'A' :: 'N' :: 'K' :: sfx) 0 2 rfl (by decide), hmtB2]
      simp only [List.dropWhile_nil, splitGo]
      rfl
    have hc1 : pyStartsWith ("BLANK" ++ sfx.asString) "#" = false := rfl
    have hc3 : pyStartsWith ("BLANK" ++ sfx.asString) "BLANK" = true := pyStartsWith_blank sfx
    have hc2 : pyStripL ('B' :: 'L' :: 'A' :: 'N' :: 'K' :: sfx.asString.data) ≠ [] :=
      pyStripL_cons_ne_nil 'B' ('L' :: 'A' :: 'N' :: 'K' :: sfx.asString.data) rfl
    show readGo source ["BLANK" ++ sfx.asString] [] [] = _
    simp [readGo, hc1, hc2, hc3, hsplitB]

/-- C4 (witness): the amended theorem applied at the concrete lines
`BLANK G1` (entry `G1 → ""` created) and `BLANK` (dropped). -/
theorem blank_line_group_entries_witness :
    read_spec_lines "src" ["BLANK " ++ (['G', '1']).asString] =
      Except.ok ([((['G', '1']).asString, "")], []) ∧
    read_spec_lines "src" ["BLANK" ++ ([] : List Char).asString] = Except.ok ([], []) :=
  ⟨(blank_line_group_entries "src" 'G' ['1'] []).1 (by decide),
   (blank_line_group_entries "src" 'G' ['1'] []).2 (by decide)⟩

/-- C7: whenever `write_as_latex` succeeds, its `Header Version:` line
shows the `spec` field of the (unique) record whose header is `HEADVER`
when the mapping contains one — the passed-in version is overridden before
the line is printed — and the passed-in version unchanged when no record's
header is `HEADVER`. -/
theorem write_as_latex_headver_version_line (groups : List (String × String))
    (specs : List (String × Card)) (version out : String)
    (hok : write_as_latex groups specs version = Except.ok out) :
    ((∀ c ∈ specs.map Prod.snd, c.header ≠ "HEADVER") →
      ∃ rest, out = "Header Version: " ++ version ++ "\n" ++ rest) ∧
    (∀ c ∈ specs.map Prod.snd, c.header = "HEADVER" →
      (∀ c2 ∈ specs.map Prod.snd, c2.header = "HEADVER" → c2 = c) →
      ∃ rest, out = "Header Version: " ++ c.spec ++ "\n" ++ rest) := by
  obtain ⟨rest, hrest⟩ := write_as_latex_ok_version groups specs version out hok
  constructor
  · intro hno
    exact ⟨rest, by rw [hrest, hvFold_no_headver _ _ hno]⟩
  · intro c hmem hh huniq
    exact ⟨rest, by rw [hrest, hvFold_unique _ c _ hmem hh huniq]⟩

/-- C7 (witness): the theorem applied to a concrete mapping holding a
`HEADVER` record with spec `1.3` and a passed-in version `0.0`. -/
theorem write_as_latex_headver_version_line_witness :
    ∃ out,
      write_as_latex []
        [("HEADVER", ⟨"src", "None", "HEADVER", "STRING", "1.3", "the version", "", ""⟩)]
        "0.0" = Except.ok out ∧
      ∃ rest, out = "Header Version: " ++ "1.3" ++ "\n" ++ rest := by
  obtain ⟨out, hout⟩ : ∃ out,
      write_as_latex []
        [("HEADVER", ⟨"src", "None", "HEADVER", "STRING", "1.3", "the version", "", ""⟩)]
        "0.0" = Except.ok out := ⟨_, rfl⟩
  refine ⟨out, hout, ?_⟩
  exact (write_as_latex_headver_version_line _ _ _ out hout).2
    ⟨"src", "None", "HEADVER", "STRING", "1.3", "the version", "", ""⟩
    (by simp) rfl
    (by intro c2 h2 _; simp at h2; exact h2)

/-- C9: for every ordered list of source files, a successful
`combine_spec_files` merges per-file group and record mappings with later
files overwriting earlier ones under identical keys: the combined lookup of
any key equals the lookup in the parse of the last listed file that defines
that key. -/
theorem combine_spec_files_last_wins (server : List (String × List String))
    (base : String) (files : List String)
    (gs : List (String × String)) (rs : List (String × Card))
    (h : combine_spec_files server base files = Except.ok (gs, rs)) :
    (∀ k, dictLookup gs k = combinedGroupsSpec server base files k) ∧
    (∀ k, dictLookup rs k = combinedRecordsSpec server base files k) := by
  obtain ⟨hg, hr⟩ := combineGo_lookup server base files [] [] gs rs h
  refine ⟨fun k => ?_, fun k => ?_⟩
  · rw [hg k, show dictLookup ([] : List (String × String)) k = none from rfl,
      oget_none_right]
  · rw [hr k, show dictLookup ([] : List (String × Card)) k = none from rfl,
      oget_none_right]

/-- Two-file server for the C9 witness: both files define `FOO` with
different types. -/
def fooServer : List (String × List String) :=
  [("u/a.spec", ["FOO STRING 1 first"]), ("u/b.spec", ["FOO FLOAT 2 second"])]

/-- C9 (witness): combining two files that both define header `FOO` leaves
the record of the later file (`b`, type `FLOAT`) in the combined mapping. -/
theorem combine_spec_files_last_wins_witness :
    ∃ gs rs, combine_spec_files fooServer "u/" ["a", "b"] = Except.ok (gs, rs) ∧
      dictLookup rs "FOO" = combinedRecordsSpec fooServer "u/" ["a", "b"] "FOO" ∧
      dictLookup rs "FOO" =
        some ⟨"b", "None", "FOO", "FLOAT", "2", "second", "", ""⟩ := by
  refine ⟨[], [("FOO", ⟨"b", "None", "FOO", "FLOAT", "2", "second", "", ""⟩)], rfl, ?_, rfl⟩
  exact (combine_spec_files_last_wins fooServer "u/" ["a", "b"] _ _ rfl).2 "FOO"

/-- `get_header_version` scans values in insertion order and returns the
first `HEADVER` match, else `"Unknown"`. -/
theorem ghvGo_eq_find (cards : List Card) :
    ghvGo cards =
      match cards.find? (fun c => decide (c.header = "HEADVER")) with
      | some c => c.spec
      | none => "Unknown" := by
  induction cards with
  | nil => rfl
  | cons c rest ih =>
    show (if c.header = "HEADVER" then c.spec else ghvGo rest) = _
    by_cases hc : c.header = "HEADVER"
    · simp [hc, List.find?_cons]
    · simp [hc, List.find?_cons, ih]

/-- C10: the driver computes the header version once — from the first
(lsstcam primary) build's combined records, as the `spec` of the first
record in insertion order whose header is `HEADVER`, defaulting to
`"Unknown"` — and passes that same string to all three `write_as_latex`
calls, so each output's version line is that string folded through its own
build's `HEADVER` overrides; in particular the auxtel and amplifier
outputs print the lsstcam-derived version whenever their own record
mappings contain no `HEADVER` entry. -/
theorem driver_single_header_version (server : List (String × List String))
    (g1 g2 g3 : List (String × String)) (r1 r2 r3 : List (String × Card))
    (o1 o2 o3 : String)
    (h1 : combine_spec_files server baseURL lsstcam_primary_files = Except.ok (g1, r1))
    (h2 : combine_spec_files server baseURL auxtel_primary_files = Except.ok (g2, r2))
    (h3 : combine_spec_files server baseURL amplifier_files = Except.ok (g3, r3))
    (hd : driver server = Except.ok (o1, o2, o3)) :
    (get_header_version r1 =
      match (r1.map Prod.snd).find? (fun c => decide (c.header = "HEADVER")) with
      | some c => c.spec
      | none => "Unknown") ∧
    (∃ rest, o1 = "Header Version: " ++
      hvFold (r1.map Prod.snd) (get_header_version r1) ++ "\n" ++ rest) ∧
    (∃ rest, o2 = "Header Version: " ++
      hvFold (r2.map Prod.snd) (get_header_version r1) ++ "\n" ++ rest) ∧
    (∃ rest, o3 = "Header Version: " ++
      hvFold (r3.map Prod.snd) (get_header_version r1) ++ "\n" ++ rest) ∧
    ((∀ c ∈ r2.map Prod.snd, c.header ≠ "HEADVER") →
      ∃ rest, o2 = "Header Version: " ++ get_header_version r1 ++ "\n" ++ rest) ∧
    ((∀ c ∈ r3.map Prod.snd, c.header ≠ "HEADVER") →
      ∃ rest, o3 = "Header Version: " ++ get_header_version r1 ++ "\n" ++ rest) := by
  simp only [driver, h1, h2, h3] at hd
  split at hd
  · exact absurd hd (by simp)
  · rename_i w1 hw1
    split at hd
    · exact absurd hd (by simp)
    · rename_i w2 hw2
      split at hd
      · exact absurd hd (by simp)
      · rename_i w3 hw3
        injection hd with hd
        obtain ⟨ho1, ho2, ho3⟩ : w1 = o1 ∧ w2 = o2 ∧ w3 = o3 := by
          simpa [Prod.ext_iff] using hd
        subst ho1; subst ho2; subst ho3
        refine ⟨ghvGo_eq_find (r1.map Prod.snd), ?_, ?_, ?_, ?_, ?_⟩
        · exact write_as_latex_ok_version g1 r1 _ w1 hw1
        · exact write_as_latex_ok_version _ r2 _ w2 hw2
        · exact write_as_latex_ok_version _ r3 _ w3 hw3
        · intro hno
          obtain ⟨rest, hrest⟩ := write_as_latex_ok_version _ r2 _ w2 hw2
          exact ⟨rest, by rw [hrest, hvFold_no_headver _ _ hno]⟩
        · intro hno
          obtain ⟨rest, hrest⟩ := write_as_latex_ok_version _ r3 _ w3 hw3
          exact ⟨rest, by rw [hrest, hvFold_no_headver _ _ hno]⟩

/-- Concrete server for the C10 witness: one small file per name used by
the driver; only the lsstcam build's sources define `HEADVER` (spec
`1.3`), the amplifier build does not. -/
def witnessServer : List (String × List String) :=
  [(baseURL ++ "primary-groups" ++ ".spec",
     ["BLANK PG The primary group", "HEADVER STRING 1.3 The version"]),
   (baseURL ++ "merged-primary" ++ ".spec", ["PG:FOO STRING 1 a primary header"]),
   (baseURL ++ "lsstcam-primary" ++ ".spec", ["# lsstcam"]),
   (baseURL ++ "header-service-primary" ++ ".spec", ["# header service"]),
   (baseURL ++ "filter" ++ ".spec", ["FILTER STRING r filter name"]),
   (baseURL ++ "ats-primary" ++ ".spec", ["# ats"]),
   (baseURL ++ "ats-header-service-primary" ++ ".spec", ["# ats hs"]),
   (baseURL ++ "extended" ++ ".spec", ["AMP1 STRING x amplifier header"])]

/-- C10 (witness): on the concrete server the amplifier build, whose
records contain no `HEADVER`, prints the version `1.3` derived from the
lsstcam primary build. -/
theorem driver_single_header_version_witness :
    ∃ o1 o2 o3, driver witnessServer = Except.ok (o1, o2, o3) ∧
      (∃ rest, o3 = "Header Version: " ++ "1.3" ++ "\n" ++ rest) := by
  obtain ⟨o, hd⟩ : ∃ o, driver witnessServer = Except.ok o := ⟨_, rfl⟩
  obtain ⟨o1, o2, o3⟩ := o
  have hmain := driver_single_header_version witnessServer
    [("PG", "The primary group")] [("PG", "The primary group")] []
    [("HEADVER", ⟨"primary-groups", "None", "HEADVER", "STRING", "1.3", "The version", "", ""⟩),
     ("FOO", ⟨"merged-primary", "PG", "FOO", "STRING", "1", "a primary header", "", ""⟩),
     ("FILTER", ⟨"filter", "None", "FILTER", "STRING", "r", "filter name", "", ""⟩)]
    [("HEADVER", ⟨"primary-groups", "None", "HEADVER", "STRING", "1.3", "The version", "", ""⟩),
     ("FOO", ⟨"merged-primary", "PG", "FOO", "STRING", "1", "a primary header", "", ""⟩)]
    [("AMP1", ⟨"extended", "None", "AMP1", "STRING", "x", "amplifier header", "", ""⟩)]
    o1 o2 o3 rfl rfl rfl hd
  exact ⟨o1, o2, o3, hd, hmain.2.2.2.2.2 (by decide)⟩
